import Mathlib

/-!
Connection pumps of the tomb_mates server (`cmd/server/client.go`).

A shallow embedding of `Client.readPump`, `Client.writePump` and `serveWs`.
Each function is modelled by the sequence of externally visible actions it
performs (calls on the socket, the hub channels, the world, the logger),
driven by a script of what the environment hands to it (frames read, pongs,
read failures, channel sends, timer ticks, write outcomes).

The `game` package (events, world) and the protobuf / websocket libraries are
not part of `cmd/server/client.go`; whatever the code needs from them enters
the model as a parameter.
-/

namespace TombMates

/-! ## Constants (`client.go` lines 13-25) -/

/-- Go `time.Second`, a `time.Duration` counted in nanoseconds. -/
def second : Nat := 1000000000

/-- Time allowed to write a message to the peer (line 15). -/
def writeWait : Nat := 10 * second

/-- Time allowed to read the next pong message from the peer (line 18). -/
def pongWait : Nat := 60 * second

/-- Send pings to peer with this period (line 21). -/
def pingPeriod : Nat := (pongWait * 9) / 10

/-- Maximum message size allowed from peer (line 24). -/
def maxMessageSize : Nat := 512

/-- Capacity of the per-client `send` channel, `make(chan []byte, 256)` (line 138). -/
def sendCap : Nat := 256

/-- Websocket close codes named at line 69 (RFC 6455 values). -/
def closeGoingAway : Nat := 1001

/-- Websocket close code for an abnormal closure (RFC 6455 value). -/
def closeAbnormalClosure : Nat := 1006

/-! ## Data model -/

/-- A Go `[]byte`. -/
abbrev Bytes := List Nat

/-- A Go `error` value: either a websocket `*CloseError` with its code, or any other error. -/
inductive Err where
  | closeError (code : Nat)
  | other (text : String)
  deriving DecidableEq, Repr

/-- The `Type` field of `game.Event`; the tags used by `client.go` and the remaining ones. -/
inductive EventType where
  | init
  | connect
  | exit
  | other (tag : Nat)
  deriving DecidableEq, Repr

/-- The `Data` oneof of `game.Event`, over the unit type `U` of the world. -/
inductive EventData (U : Type) where
  | none
  | init (playerId : String) (units : List (String × U))
  | connect (unit : Option U)
  | exit (playerId : String)
  | other (payload : Bytes)
  deriving DecidableEq, Repr

/-- A `game.Event`: a type tag and a payload. -/
structure Event (U : Type) where
  type : EventType
  data : EventData U
  deriving DecidableEq, Repr

/-- The event built at lines 47-52: `Event{Type: exit, Data: Exit{PlayerId: id}}`. -/
def exitEvent {U : Type} (id : String) : Event U :=
  { type := .exit, data := .exit id }

/-- The event built at lines 141-149: `Event{Type: init, Data: Init{PlayerId, Units}}`. -/
def initEvent {U : Type} (id : String) (units : List (String × U)) : Event U :=
  { type := .init, data := .init id units }

/-- The event built at lines 158-163: `Event{Type: connect, Data: Connect{Unit}}`. -/
def connectEvent {U : Type} (unit : Option U) : Event U :=
  { type := .connect, data := .connect unit }

/-- The `Client` struct (lines 33-38); hub, socket and send channel are the
handles the actions below act on, the id is the only plain datum. -/
structure Client where
  id : String
  deriving DecidableEq, Repr

/-- Websocket message kinds written by the code. -/
inductive MsgKind where
  | binary
  | close
  | ping
  deriving DecidableEq, Repr

/-- One externally visible step of the connection code. -/
inductive Action (U : Type) where
  /-- The call `log.Println(err)`. -/
  | logPrintln (e : Err)
  /-- The call `log.Printf("error: %v", err)`. -/
  | logPrintf (e : Err)
  /-- The call `c.conn.SetReadLimit(n)`. -/
  | setReadLimit (n : Nat)
  /-- The call `c.conn.SetReadDeadline(t)`. -/
  | setReadDeadline (t : Nat)
  /-- The call `c.conn.SetPongHandler(...)`. -/
  | setPongHandler
  /-- The call `c.conn.SetWriteDeadline(t)`. -/
  | setWriteDeadline (t : Nat)
  /-- One message put on the socket: `conn.WriteMessage(kind, data)`, or a
  `NextWriter` .. `Close` pair around the written bytes. -/
  | writeMessage (kind : MsgKind) (data : Bytes)
  /-- The call `c.conn.Close()`. -/
  | connClose
  /-- The call `ticker.Stop()`. -/
  | tickerStop
  /-- The call `time.NewTicker(d)`. -/
  | newTicker (d : Nat)
  /-- The send `hub.broadcast <- message`. -/
  | broadcast (message : Bytes)
  /-- The send `hub.register <- client`. -/
  | register (c : Client)
  /-- The send `hub.unregister <- c`. -/
  | unregister (c : Client)
  /-- The call `world.HandleEvent(event)`. -/
  | handleEvent (e : Event U)
  /-- The call `world.AddPlayer()` together with the id it returned. -/
  | addPlayer (id : String)
  /-- The statement `go client.writePump()`. -/
  | goWritePump (c : Client)
  /-- The statement `go client.readPump(world)`. -/
  | goReadPump (c : Client)
  deriving DecidableEq, Repr

/-- The library call `proto.Marshal(event)`: the bytes and the error it returns. -/
abbrev Marshal (U : Type) := Event U → Bytes × Option Err

/-- The library call `proto.Unmarshal(message, event)` on a fresh `&game.Event{}`:
the contents of `event` after the call and the error it returns. -/
abbrev Unmarshal (U : Type) := Bytes → Event U × Option Err

/-- The statement `if err != nil { log.Println(err) }`. -/
def logIfErr {U : Type} : Option Err → List (Action U)
  | some e => [.logPrintln e]
  | none => []

/-- The library predicate `websocket.IsUnexpectedCloseError(err, codes...)`: the
error is a close error whose code is none of the expected ones. -/
def isUnexpectedCloseError (e : Err) (expected : List Nat) : Bool :=
  match e with
  | .closeError code => !(expected.contains code)
  | .other _ => false

/-! ## `readPump` (lines 45-82) -/

/-- What one blocking `c.conn.ReadMessage()` call meets, with the wall-clock time of the
occurrence: a pong control frame (the pong handler runs and the call keeps waiting), a data
frame (the call returns it), or an error (the call returns it). -/
inductive ReadEvt where
  | pong (now : Nat)
  | message (now : Nat) (data : Bytes)
  | fail (e : Err)
  deriving DecidableEq, Repr

/-- The statement of lines 69-71: only an unexpected close error is logged. -/
def logReadErr {U : Type} (e : Err) : List (Action U) :=
  if isUnexpectedCloseError e [closeGoingAway, closeAbnormalClosure] then [.logPrintf e] else []

/-- The `for` loop of lines 66-81 over a script of read occurrences. The flag tells whether
the loop reached `break`; on an exhausted script the loop is still blocked in `ReadMessage`. -/
def readLoop {U : Type} (unmarshal : Unmarshal U) : List ReadEvt → List (Action U) × Bool
  | [] => ([], false)
  | .pong now :: rest =>
      let r := readLoop unmarshal rest
      (.setReadDeadline (now + pongWait) :: r.1, r.2)
  | .message _ message :: rest =>
      let r := readLoop unmarshal rest
      let d := unmarshal message
      (.broadcast message :: (logIfErr d.2 ++ .handleEvent d.1 :: r.1), r.2)
  | .fail e :: _ => (logReadErr e, true)

/-- The deferred function of lines 46-62. -/
def readPumpDeferred {U : Type} (c : Client) (marshal : Marshal U) : List (Action U) :=
  let event : Event U := exitEvent c.id
  let m := marshal event
  logIfErr m.2 ++ [.handleEvent event, .broadcast m.1, .unregister c, .connClose]

/-- The three set-up calls of lines 63-65; `now` is `time.Now()` at line 64. -/
def readPumpSetup {U : Type} (now : Nat) : List (Action U) :=
  [.setReadLimit maxMessageSize, .setReadDeadline (now + pongWait), .setPongHandler]

/-- The function `Client.readPump`: set-up, the read loop, and the deferred function once the
loop has left through `break`. -/
def readPump {U : Type} (c : Client) (marshal : Marshal U) (unmarshal : Unmarshal U)
    (now : Nat) (reads : List ReadEvt) : List (Action U) :=
  let r := readLoop unmarshal reads
  readPumpSetup now ++ r.1 ++ (if r.2 then readPumpDeferred c marshal else [])

/-! ### Observations on a trace -/

/-- The messages submitted to `hub.broadcast`, in order. -/
def broadcasts {U : Type} : List (Action U) → List Bytes
  | [] => []
  | .broadcast m :: rest => m :: broadcasts rest
  | _ :: rest => broadcasts rest

/-- The events passed to `world.HandleEvent`, in order. -/
def dispatched {U : Type} : List (Action U) → List (Event U)
  | [] => []
  | .handleEvent e :: rest => e :: dispatched rest
  | _ :: rest => dispatched rest

/-- The clients submitted to `hub.unregister`, in order. -/
def unregistered {U : Type} : List (Action U) → List Client
  | [] => []
  | .unregister c :: rest => c :: unregistered rest
  | _ :: rest => unregistered rest

/-- The arguments of the `SetReadDeadline` calls, in order. -/
def deadlineSets {U : Type} : List (Action U) → List Nat
  | [] => []
  | .setReadDeadline t :: rest => t :: deadlineSets rest
  | _ :: rest => deadlineSets rest

/-- The read deadline in force after a run: the argument of the last `SetReadDeadline`. -/
def readDeadline {U : Type} (tr : List (Action U)) : Option Nat :=
  (deadlineSets tr).getLast?

/-- Whether the action is a call of the logger. -/
def Action.isLog {U : Type} : Action U → Bool
  | .logPrintln _ => true
  | .logPrintf _ => true
  | _ => false

/-- Whether the read occurrence is an error returned by `ReadMessage`. -/
def ReadEvt.isFail : ReadEvt → Bool
  | .fail _ => true
  | _ => false

/-- The data frames that `ReadMessage` returned, in read order, up to the first error. -/
def framesRead : List ReadEvt → List Bytes
  | [] => []
  | .pong _ :: rest => framesRead rest
  | .message _ m :: rest => m :: framesRead rest
  | .fail _ :: _ => []

/-- The times of the pongs received, in order, up to the first error. -/
def pongTimes : List ReadEvt → List Nat
  | [] => []
  | .pong now :: rest => now :: pongTimes rest
  | .message _ _ :: rest => pongTimes rest
  | .fail _ :: _ => []

/-! ### A small codec for concrete runs -/

/-- The contents of a fresh `&game.Event{}`. -/
def zeroEvent {U : Type} : Event U :=
  { type := .init, data := .none }

/-- Modelled from the spec: the Event codec (`proto.Marshal` over the generated `game.Event`
type, which lives outside `cmd/server/client.go`); section 4.5 asks that decoding an encoding
gives the event back. This sample encodes an exit event as the tag byte 2 followed by the
characters of the player id, a connect event as the tag byte 1 followed by the unit if any,
and leaves the other events out (empty encoding). It only instantiates general statements on
concrete inputs. -/
def sampleMarshal : Marshal Nat
  | ⟨.exit, .exit id⟩ => (2 :: id.toList.map Char.toNat, none)
  | ⟨.connect, .connect (some u)⟩ => ([1, u], none)
  | ⟨.connect, .connect none⟩ => ([1], none)
  | _ => ([], none)

/-- Modelled from the spec: the decoder paired with `sampleMarshal`; a frame that is not an
encoding is rejected with an error and leaves the event empty. -/
def sampleUnmarshal : Unmarshal Nat
  | [] => (zeroEvent, none)
  | [1] => (connectEvent none, none)
  | [1, u] => (connectEvent (some u), none)
  | 2 :: rest => (exitEvent (String.mk (rest.map Char.ofNat)), none)
  | _ => (zeroEvent, some (.other "proto: cannot parse invalid wire-format data"))

/-! ## `writePump` (lines 89-127) -/

/-- Where the writer goroutine stands between two of its atomic steps. -/
inductive WPc where
  /-- Blocked in the `select` of line 96. -/
  | select
  /-- After `w.Write(message)` (line 109), before `len(c.send)`; `w` holds the bytes written. -/
  | haveWriter (w : Bytes)
  /-- Inside the loop of lines 113-115 with counter `i` and bound `n`. -/
  | draining (w : Bytes) (i n : Nat)
  /-- After `return`; the deferred function has run. -/
  | returned
  deriving DecidableEq, Repr

/-- The writer goroutine together with its `send` channel. -/
structure WState (U : Type) where
  /-- Buffered contents of `c.send`, oldest first. -/
  queue : List Bytes
  /-- Whether `c.send` has been closed. -/
  closed : Bool
  pc : WPc
  /-- Actions performed so far, oldest first. -/
  trace : List (Action U)

/-- What can happen next: the hub acts on the channel, or the writer takes one step whose
outcome (which `select` case fires, whether a socket write succeeds, the current time) is
supplied by the environment. -/
inductive WEvent where
  /-- The hub sends `p` on `c.send`. -/
  | enqueue (p : Bytes)
  /-- The hub closes `c.send`. -/
  | closeSend
  /-- The `select` takes `case message, ok := <-c.send`; `nextWriterOk` is the outcome of line 105. -/
  | recv (now : Nat) (nextWriterOk : Bool)
  /-- The `select` takes `case <-ticker.C`; `pingOk` is the outcome of line 122. -/
  | tick (now : Nat) (pingOk : Bool)
  /-- Line 112, `n := len(c.send)`. -/
  | len
  /-- One turn of the loop body, line 114, `w.Write(<-c.send)`. -/
  | deq
  /-- Line 117, `w.Close()`, with its outcome. -/
  | flush (closeOk : Bool)
  deriving DecidableEq, Repr

/-- State at entry of `writePump`, after `time.NewTicker(pingPeriod)` (line 90). -/
def winit {U : Type} : WState U :=
  { queue := [], closed := false, pc := .select, trace := [.newTicker pingPeriod] }

/-- The statement `return` inside `writePump`: the deferred function of lines 91-94 runs. -/
def wreturn {U : Type} (s : WState U) (acts : List (Action U)) : WState U :=
  { s with pc := .returned, trace := s.trace ++ acts ++ [.tickerStop, .connClose] }

/-- Whether a send on `c.send` goes through: the channel is open and its buffer has room. -/
def canSend {U : Type} (s : WState U) : Bool :=
  !s.closed && decide (s.queue.length < sendCap)

/-- One step of the system made of the writer goroutine and its channel. An event that is not
enabled in the current state (a blocked receive, a blocked send, a writer step at another
program point) leaves the state unchanged. -/
def wstep {U : Type} (s : WState U) : WEvent → WState U
  | .enqueue p => if canSend s then { s with queue := s.queue ++ [p] } else s
  | .closeSend => { s with closed := true }
  | .recv now nextWriterOk =>
      match s.pc, s.queue with
      | .select, message :: rest =>
          let s1 := { s with queue := rest }
          if nextWriterOk then
            { s1 with pc := .haveWriter message,
                      trace := s.trace ++ [.setWriteDeadline (now + writeWait)] }
          else wreturn s1 [.setWriteDeadline (now + writeWait)]
      | .select, [] =>
          if s.closed then
            wreturn s [.setWriteDeadline (now + writeWait), .writeMessage .close []]
          else s
      | _, _ => s
  | .tick now pingOk =>
      match s.pc with
      | .select =>
          if pingOk then
            { s with trace := s.trace ++
                [.setWriteDeadline (now + writeWait), .writeMessage .ping []] }
          else wreturn s [.setWriteDeadline (now + writeWait), .writeMessage .ping []]
      | _ => s
  | .len =>
      match s.pc with
      | .haveWriter w => { s with pc := .draining w 0 s.queue.length }
      | _ => s
  | .deq =>
      match s.pc with
      | .draining w i n =>
          if i < n then
            match s.queue with
            | p :: rest => { s with queue := rest, pc := .draining (w ++ p) (i + 1) n }
            | [] => if s.closed then { s with pc := .draining w (i + 1) n } else s
          else s
      | _ => s
  | .flush closeOk =>
      match s.pc with
      | .draining w i n =>
          if i < n then s
          else if closeOk then
            { s with pc := .select, trace := s.trace ++ [.writeMessage .binary w] }
          else wreturn s []
      | _ => s

/-- The function `Client.writePump` run against a schedule of events. -/
def writePump {U : Type} (es : List WEvent) : WState U :=
  es.foldl wstep winit

/-- The payload a channel send contributes when it goes through in state `s`. -/
def acceptedBy {U : Type} (s : WState U) : WEvent → List Bytes
  | .enqueue p => if canSend s then [p] else []
  | _ => []

/-- The payloads that the channel accepted during a schedule started in `s`, in send order. -/
def accepted {U : Type} (s : WState U) : List WEvent → List Bytes
  | [] => []
  | e :: es => acceptedBy s e ++ accepted (wstep s e) es

/-- The binary frames among a list of actions, in order. -/
def frames {U : Type} : List (Action U) → List Bytes
  | [] => []
  | .writeMessage .binary w :: rest => w :: frames rest
  | _ :: rest => frames rest

/-- The bytes handed to the socket writer of a frame that is not closed yet. -/
def inflight : WPc → Bytes
  | .haveWriter w => w
  | .draining w _ _ => w
  | _ => []

/-- Whether the event reports no failed socket write. -/
def WEvent.succeeds : WEvent → Bool
  | .recv _ ok => ok
  | .tick _ ok => ok
  | .flush ok => ok
  | _ => true

/-- The schedule in which the writer, blocked in `select`, receives a payload and completes
one frame while `k` more payloads are queued: receive, read the length, `k` loop turns, close. -/
def oneFrame (now k : Nat) : List WEvent :=
  [.recv now true, .len] ++ List.replicate k .deq ++ [.flush true]

/-- A pass of the writer with channel sends in between: the writer, blocked in `select`,
receives a payload, the hub sends the payloads `early`, the writer reads the queue length, the
hub sends the payloads `late`, the writer takes `k` loop turns and closes the frame. -/
def onePass (now : Nat) (early late : List Bytes) (k : Nat) : List WEvent :=
  [.recv now true] ++ early.map .enqueue ++ [.len] ++ late.map .enqueue
    ++ List.replicate k .deq ++ [.flush true]

/-- What the program point of the writer says about the payloads `cur` handed to the frame
being built and about the `len` payloads still queued. With `lossy` set, a writer that has
returned may have dropped `cur` (a failed socket write); without it, it has dropped nothing. -/
def pcOk (lossy : Bool) : WPc → List Bytes → Nat → Prop
  | .select, cur, _ => cur = []
  | .returned, cur, _ => lossy = true ∨ cur = []
  | .haveWriter w, cur, _ => cur ≠ [] ∧ w = cur.flatten
  | .draining w i n, cur, len => cur ≠ [] ∧ w = cur.flatten ∧ n - i ≤ len

/-- The bookkeeping invariant of the writer against the list `acc` of payloads accepted by
the channel: `acc` splits, in order, into the groups `gs` of the frames written, the payloads
`cur` of the frame being built, and the queue. -/
def WInv {U : Type} (lossy : Bool) (s : WState U) (acc : List Bytes) : Prop :=
  ∃ (gs : List (List Bytes)) (cur : List Bytes),
    (∀ g ∈ gs, g ≠ []) ∧
    frames s.trace = gs.map List.flatten ∧
    gs.flatten ++ cur ++ s.queue = acc ∧
    pcOk lossy s.pc cur s.queue.length

/-! ## `serveWs` (lines 130-175) -/

/-- The part of `game.World` that `client.go` reads: the `Units` map, as an association list. -/
structure World (U : Type) where
  units : List (String × U)

/-- The method `world.AddPlayer`, as a function of the world it mutates: the id it returns and
the world it leaves. -/
abbrev AddPlayer (U : Type) := World U → String × World U

/-- The first `event` of `serveWs` (lines 137-149): the init event built from the id that
`AddPlayer` returned and from `world.Units` as read after that call. -/
def serveWsInit {U : Type} (addPlayer : AddPlayer U) (world : World U) : Event U :=
  let a := addPlayer world
  initEvent a.1 a.2.units

/-- The second `event` of `serveWs` (lines 157-163): the connect event built from
`world.Units[id]`. -/
def serveWsConnect {U : Type} (addPlayer : AddPlayer U) (world : World U) : Event U :=
  let a := addPlayer world
  connectEvent (a.2.units.lookup a.1)

/-- The function `serveWs`. `upgradeErr` is the error of `upgrader.Upgrade`; the result is the
trace and the world left behind. -/
def serveWs {U : Type} (upgradeErr : Option Err) (addPlayer : AddPlayer U)
    (marshal : Marshal U) (world : World U) : List (Action U) × World U :=
  match upgradeErr with
  | some e => ([.logPrintln e], world)
  | none =>
      let a := addPlayer world
      let id := a.1
      let client : Client := { id := id }
      let m1 := marshal (serveWsInit addPlayer world)
      let m2 := marshal (serveWsConnect addPlayer world)
      ([.addPlayer id, .register client] ++ logIfErr m1.2 ++ [.writeMessage .binary m1.1]
        ++ logIfErr m2.2 ++ [.broadcast m2.1, .goWritePump client, .goReadPump client], a.2)

/-- What the peer of the new connection has received on its socket by the time `serveWs`
sends on `hub.broadcast` (line 169): the message of the `conn.WriteMessage` call of line 155
when that call succeeded, nothing when it returned the error `initWriteErr`. The code discards
the result of the call, so the steps of `serveWs` are the same either way. -/
def serveWsReceived {U : Type} (initWriteErr : Option Err) (addPlayer : AddPlayer U)
    (marshal : Marshal U) (world : World U) : List Bytes :=
  match initWriteErr with
  | none => frames (serveWs none addPlayer marshal world).1
  | some _ => []

/-- The Go map store `m[k] = v` on an association list. -/
def mapSet {U : Type} (m : List (String × U)) (k : String) (v : U) : List (String × U) :=
  (k, v) :: m.filter (fun kv => kv.1 != k)

/-- Modelled from the spec: the method `World.AddPlayer` of package `game`, which lives
outside `cmd/server/client.go`. The spec gives it as `AddPlayer() -> player_id` next to a unit
snapshot keyed by player id, and has the connect event carry the new player's unit: the call
stores the new player's unit under the new id and returns the id. The id and the unit that
the simulation picks are arguments here. -/
def addPlayerWith {U : Type} (id : String) (unit : U) : AddPlayer U :=
  fun world => (id, { units := mapSet world.units id unit })

/-! ## Facts about `readPump` -/

theorem broadcasts_append {U : Type} (xs ys : List (Action U)) :
    broadcasts (xs ++ ys) = broadcasts xs ++ broadcasts ys := by
  induction xs with
  | nil => rfl
  | cons a t ih => cases a <;> simp [broadcasts, ih]

theorem dispatched_append {U : Type} (xs ys : List (Action U)) :
    dispatched (xs ++ ys) = dispatched xs ++ dispatched ys := by
  induction xs with
  | nil => rfl
  | cons a t ih => cases a <;> simp [dispatched, ih]

theorem unregistered_append {U : Type} (xs ys : List (Action U)) :
    unregistered (xs ++ ys) = unregistered xs ++ unregistered ys := by
  induction xs with
  | nil => rfl
  | cons a t ih => cases a <;> simp [unregistered, ih]

theorem deadlineSets_append {U : Type} (xs ys : List (Action U)) :
    deadlineSets (xs ++ ys) = deadlineSets xs ++ deadlineSets ys := by
  induction xs with
  | nil => rfl
  | cons a t ih => cases a <;> simp [deadlineSets, ih]

theorem broadcasts_logIfErr {U : Type} (o : Option Err) :
    broadcasts (logIfErr (U := U) o) = [] := by
  cases o <;> rfl

theorem dispatched_logIfErr {U : Type} (o : Option Err) :
    dispatched (logIfErr (U := U) o) = [] := by
  cases o <;> rfl

theorem unregistered_logIfErr {U : Type} (o : Option Err) :
    unregistered (logIfErr (U := U) o) = [] := by
  cases o <;> rfl

theorem deadlineSets_logIfErr {U : Type} (o : Option Err) :
    deadlineSets (logIfErr (U := U) o) = [] := by
  cases o <;> rfl

theorem broadcasts_logReadErr {U : Type} (e : Err) :
    broadcasts (logReadErr (U := U) e) = [] := by
  unfold logReadErr; split <;> rfl

theorem dispatched_logReadErr {U : Type} (e : Err) :
    dispatched (logReadErr (U := U) e) = [] := by
  unfold logReadErr; split <;> rfl

theorem unregistered_logReadErr {U : Type} (e : Err) :
    unregistered (logReadErr (U := U) e) = [] := by
  unfold logReadErr; split <;> rfl

theorem deadlineSets_logReadErr {U : Type} (e : Err) :
    deadlineSets (logReadErr (U := U) e) = [] := by
  unfold logReadErr; split <;> rfl

/-- A script prefix without a read error lets the loop run on into the rest of the script. -/
theorem readLoop_append {U : Type} (unmarshal : Unmarshal U) (pre post : List ReadEvt)
    (h : ∀ x ∈ pre, x.isFail = false) :
    readLoop unmarshal (pre ++ post)
      = ((readLoop unmarshal pre).1 ++ (readLoop unmarshal post).1,
         (readLoop unmarshal post).2) := by
  induction pre with
  | nil => simp [readLoop]
  | cons x t ih =>
    have ht : ∀ y ∈ t, y.isFail = false := fun y hy => h y (List.mem_cons_of_mem _ hy)
    have hx := h x (List.mem_cons_self _ _)
    cases x with
    | pong now => simp [readLoop, ih ht]
    | message now m => simp [readLoop, ih ht]
    | fail e => simp [ReadEvt.isFail] at hx

/-- The loop broadcasts exactly the frames read, in read order. -/
theorem broadcasts_readLoop {U : Type} (unmarshal : Unmarshal U) (reads : List ReadEvt) :
    broadcasts (readLoop unmarshal reads).1 = framesRead reads := by
  induction reads with
  | nil => rfl
  | cons x t ih =>
    cases x with
    | pong now => simpa [readLoop, broadcasts, framesRead] using ih
    | message now m =>
      simp [readLoop, broadcasts, framesRead, broadcasts_append, broadcasts_logIfErr, ih]
    | fail e => simp [readLoop, framesRead, broadcasts_logReadErr]

/-- The loop passes to `HandleEvent` what `Unmarshal` left for each frame read, in read order. -/
theorem dispatched_readLoop {U : Type} (unmarshal : Unmarshal U) (reads : List ReadEvt) :
    dispatched (readLoop unmarshal reads).1
      = (framesRead reads).map (fun m => (unmarshal m).1) := by
  induction reads with
  | nil => rfl
  | cons x t ih =>
    cases x with
    | pong now => simpa [readLoop, dispatched, framesRead] using ih
    | message now m =>
      simp [readLoop, dispatched, framesRead, dispatched_append, dispatched_logIfErr, ih]
    | fail e => simp [readLoop, framesRead, dispatched_logReadErr]

/-- The loop never unregisters. -/
theorem unregistered_readLoop {U : Type} (unmarshal : Unmarshal U) (reads : List ReadEvt) :
    unregistered (readLoop unmarshal reads).1 = [] := by
  induction reads with
  | nil => rfl
  | cons x t ih =>
    cases x with
    | pong now => simpa [readLoop, unregistered] using ih
    | message now m =>
      simp [readLoop, unregistered, unregistered_append, unregistered_logIfErr, ih]
    | fail e => simp [readLoop, unregistered_logReadErr]

/-- The loop never closes the socket. -/
theorem connClose_not_mem_readLoop {U : Type} (unmarshal : Unmarshal U)
    (reads : List ReadEvt) : Action.connClose ∉ (readLoop unmarshal reads).1 := by
  induction reads with
  | nil => simp [readLoop]
  | cons x t ih =>
    cases x with
    | pong now => simpa [readLoop] using ih
    | message now m =>
      have hl : Action.connClose ∉ logIfErr (U := U) (unmarshal m).2 := by
        cases (unmarshal m).2 <;> simp [logIfErr]
      simp [readLoop, ih, hl]
    | fail e =>
      simp only [readLoop, logReadErr]
      split <;> simp

/-- The loop resets the read deadline at the pongs and nowhere else. -/
theorem deadlineSets_readLoop {U : Type} (unmarshal : Unmarshal U) (reads : List ReadEvt) :
    deadlineSets (readLoop unmarshal reads).1 = (pongTimes reads).map (fun t => t + pongWait) := by
  induction reads with
  | nil => rfl
  | cons x t ih =>
    cases x with
    | pong now => simp [readLoop, deadlineSets, pongTimes, ih]
    | message now m =>
      simp [readLoop, deadlineSets, pongTimes, deadlineSets_append, deadlineSets_logIfErr, ih]
    | fail e => simp [readLoop, pongTimes, deadlineSets_logReadErr]

/-- A script with a terminal read error after an error-free prefix: the loop runs the prefix,
handles the error and breaks; `readPump` then runs its deferred function. -/
theorem readPump_of_fail {U : Type} (c : Client) (marshal : Marshal U)
    (unmarshal : Unmarshal U) (now : Nat) (pre post : List ReadEvt) (e : Err)
    (h : ∀ x ∈ pre, x.isFail = false) :
    readPump c marshal unmarshal now (pre ++ .fail e :: post)
      = readPumpSetup now ++ ((readLoop unmarshal pre).1 ++ logReadErr e)
          ++ readPumpDeferred c marshal := by
  simp [readPump, readLoop_append unmarshal pre _ h, readLoop]

theorem framesRead_append_fail (pre post : List ReadEvt) (e : Err)
    (h : ∀ x ∈ pre, x.isFail = false) :
    framesRead (pre ++ .fail e :: post) = framesRead pre := by
  induction pre with
  | nil => rfl
  | cons x t ih =>
    have ht : ∀ y ∈ t, y.isFail = false := fun y hy => h y (List.mem_cons_of_mem _ hy)
    have hx := h x (List.mem_cons_self _ _)
    cases x with
    | pong now => simpa [framesRead] using ih ht
    | message now m => simpa [framesRead] using ih ht
    | fail e => simp [ReadEvt.isFail] at hx

/-! ## Facts about `writePump` -/

/-- No step of the writer passes an event to the world or submits a broadcast. -/
theorem wstep_silent {U : Type} (s : WState U) (e : WEvent) :
    dispatched (wstep s e).trace = dispatched s.trace ∧
    broadcasts (wstep s e).trace = broadcasts s.trace ∧
    unregistered (wstep s e).trace = unregistered s.trace := by
  cases e <;> simp only [wstep] <;> (repeat' split) <;>
    simp [wreturn, dispatched_append, broadcasts_append, unregistered_append, dispatched,
      broadcasts, unregistered]

theorem foldl_wstep_silent {U : Type} (es : List WEvent) (s : WState U) :
    dispatched (es.foldl wstep s).trace = dispatched s.trace ∧
    broadcasts (es.foldl wstep s).trace = broadcasts s.trace ∧
    unregistered (es.foldl wstep s).trace = unregistered s.trace := by
  induction es generalizing s with
  | nil => exact ⟨rfl, rfl, rfl⟩
  | cons e t ih =>
    obtain ⟨h1, h2, h5⟩ := ih (wstep s e)
    obtain ⟨h3, h4, h6⟩ := wstep_silent s e
    exact ⟨by simpa [h3] using h1, by simpa [h4] using h2, by simpa [h6] using h5⟩

/-- Whatever the schedule, `writePump` never sends on `hub.unregister`. -/
theorem writePump_no_unregister {U : Type} (es : List WEvent) :
    unregistered (writePump (U := U) es).trace = [] := by
  obtain ⟨_, _, h⟩ := foldl_wstep_silent es (winit (U := U))
  simpa [writePump, winit, unregistered] using h

/-- Whatever the schedule, `writePump` passes no event to the world and broadcasts nothing. -/
theorem writePump_silent {U : Type} (es : List WEvent) :
    dispatched (writePump (U := U) es).trace = [] ∧
    broadcasts (writePump (U := U) es).trace = [] := by
  obtain ⟨h1, h2, _⟩ := foldl_wstep_silent es (winit (U := U))
  exact ⟨by simpa [writePump, winit, dispatched] using h1,
         by simpa [writePump, winit, broadcasts] using h2⟩

theorem frames_append {U : Type} (xs ys : List (Action U)) :
    frames (xs ++ ys) = frames xs ++ frames ys := by
  induction xs with
  | nil => rfl
  | cons a t ih =>
    cases a with
    | writeMessage k d => cases k <;> simp [frames, ih]
    | _ => simp [frames, ih]

/-- Every step keeps the bookkeeping invariant; a step with a failed socket write keeps the
lossy one only. -/
theorem wstep_inv {U : Type} (lossy : Bool) (s : WState U) (acc : List Bytes) (e : WEvent)
    (hok : lossy = false → e.succeeds = true) (h : WInv lossy s acc) :
    WInv lossy (wstep s e) (acc ++ acceptedBy s e) := by
  obtain ⟨queue, closed, pc, trace⟩ := s
  obtain ⟨gs, cur, hgs, hfr, hacc, hpc⟩ := h
  simp only at hfr hacc hpc
  have hlossy : ∀ ok : Bool, (lossy = false → ok = true) → ok = false → lossy = true := by
    intro ok h1 h2
    cases lossy with
    | true => rfl
    | false => rw [h1 rfl] at h2; cases h2
  cases e with
  | enqueue p =>
    by_cases hc : canSend (U := U) ⟨queue, closed, pc, trace⟩ = true
    · simp only [wstep, acceptedBy, hc, if_true]
      refine ⟨gs, cur, hgs, hfr, by simp [← hacc], ?_⟩
      cases pc with
      | select => exact hpc
      | returned => exact hpc
      | haveWriter w => exact hpc
      | draining w i n =>
        obtain ⟨h1, h2, h3⟩ : cur ≠ [] ∧ w = cur.flatten ∧ n - i ≤ queue.length := hpc
        refine ⟨h1, h2, ?_⟩
        simp only [List.length_append, List.length_singleton]
        omega
    · simp only [wstep, acceptedBy, hc]
      exact ⟨gs, cur, hgs, hfr, by simpa using hacc, hpc⟩
  | closeSend =>
    simp only [wstep, acceptedBy, List.append_nil]
    exact ⟨gs, cur, hgs, hfr, hacc, hpc⟩
  | recv now ok =>
    simp only [WEvent.succeeds] at hok
    simp only [acceptedBy, List.append_nil]
    cases pc with
    | select =>
      have hcur : cur = [] := hpc
      subst hcur
      cases queue with
      | nil =>
        cases closed with
        | false => exact ⟨gs, [], hgs, hfr, hacc, hpc⟩
        | true =>
          refine ⟨gs, [], hgs, ?_, hacc, Or.inr rfl⟩
          simp [wstep, wreturn, frames_append, frames, hfr]
      | cons m rest =>
        cases ok with
        | true =>
          refine ⟨gs, [m], hgs, ?_, ?_, ?_⟩
          · simp [wstep, frames_append, frames, hfr]
          · simpa [wstep] using hacc
          · simp [wstep, pcOk]
        | false =>
          refine ⟨gs, [m], hgs, ?_, ?_, Or.inl (hlossy false hok rfl)⟩
          · simp [wstep, wreturn, frames_append, frames, hfr]
          · simpa [wstep, wreturn] using hacc
    | haveWriter w => exact ⟨gs, cur, hgs, hfr, hacc, hpc⟩
    | draining w i n => exact ⟨gs, cur, hgs, hfr, hacc, hpc⟩
    | returned => exact ⟨gs, cur, hgs, hfr, hacc, hpc⟩
  | tick now ok =>
    simp only [acceptedBy, List.append_nil]
    cases pc with
    | select =>
      have hcur : cur = [] := hpc
      cases ok with
      | true =>
        refine ⟨gs, cur, hgs, ?_, hacc, hpc⟩
        simp [wstep, frames_append, frames, hfr]
      | false =>
        refine ⟨gs, cur, hgs, ?_, hacc, Or.inr hcur⟩
        simp [wstep, wreturn, frames_append, frames, hfr]
    | haveWriter w => exact ⟨gs, cur, hgs, hfr, hacc, hpc⟩
    | draining w i n => exact ⟨gs, cur, hgs, hfr, hacc, hpc⟩
    | returned => exact ⟨gs, cur, hgs, hfr, hacc, hpc⟩
  | len =>
    simp only [acceptedBy, List.append_nil]
    cases pc with
    | haveWriter w =>
      obtain ⟨h1, h2⟩ : cur ≠ [] ∧ w = cur.flatten := hpc
      refine ⟨gs, cur, hgs, hfr, hacc, ?_⟩
      simp [wstep, pcOk, h1, h2]
    | select => exact ⟨gs, cur, hgs, hfr, hacc, hpc⟩
    | draining w i n => exact ⟨gs, cur, hgs, hfr, hacc, hpc⟩
    | returned => exact ⟨gs, cur, hgs, hfr, hacc, hpc⟩
  | deq =>
    simp only [acceptedBy, List.append_nil]
    cases pc with
    | draining w i n =>
      obtain ⟨hne, hw, hle⟩ : cur ≠ [] ∧ w = cur.flatten ∧ n - i ≤ queue.length := hpc
      by_cases hlt : i < n
      · cases queue with
        | nil => simp at hle; omega
        | cons p rest =>
          refine ⟨gs, cur ++ [p], hgs, ?_, ?_, ?_⟩
          · simpa [wstep, hlt] using hfr
          · simpa [wstep, hlt] using hacc
          · simp only [List.length_cons] at hle
            simp [wstep, hlt, pcOk, hw]
            omega
      · simp only [wstep, hlt, if_false]
        exact ⟨gs, cur, hgs, hfr, hacc, ⟨hne, hw, hle⟩⟩
    | select => exact ⟨gs, cur, hgs, hfr, hacc, hpc⟩
    | haveWriter w => exact ⟨gs, cur, hgs, hfr, hacc, hpc⟩
    | returned => exact ⟨gs, cur, hgs, hfr, hacc, hpc⟩
  | flush ok =>
    simp only [WEvent.succeeds] at hok
    simp only [acceptedBy, List.append_nil]
    cases pc with
    | draining w i n =>
      obtain ⟨hne, hw, hle⟩ : cur ≠ [] ∧ w = cur.flatten ∧ n - i ≤ queue.length := hpc
      by_cases hlt : i < n
      · simp only [wstep, hlt, if_true]
        exact ⟨gs, cur, hgs, hfr, hacc, ⟨hne, hw, hle⟩⟩
      · cases ok with
        | true =>
          refine ⟨gs ++ [cur], [], ?_, ?_, ?_, ?_⟩
          · intro g hg
            rcases List.mem_append.1 hg with hg | hg
            · exact hgs g hg
            · simp at hg; subst hg; exact hne
          · simp [wstep, hlt, frames_append, frames, hfr, hw]
          · simpa [wstep, hlt] using hacc
          · simp [wstep, hlt, pcOk]
        | false =>
          refine ⟨gs, cur, hgs, ?_, ?_, ?_⟩
          · simp [wstep, hlt, wreturn, frames_append, frames, hfr]
          · simpa [wstep, hlt, wreturn] using hacc
          · simp [wstep, hlt, wreturn, pcOk, hlossy false hok rfl]
    | select => exact ⟨gs, cur, hgs, hfr, hacc, hpc⟩
    | haveWriter w => exact ⟨gs, cur, hgs, hfr, hacc, hpc⟩
    | returned => exact ⟨gs, cur, hgs, hfr, hacc, hpc⟩

/-- A schedule keeps the bookkeeping invariant; one with failed socket writes keeps the lossy
one only. -/
theorem foldl_wstep_inv {U : Type} (lossy : Bool) (es : List WEvent) (s : WState U)
    (acc : List Bytes) (hok : lossy = false → ∀ e ∈ es, e.succeeds = true)
    (h : WInv lossy s acc) :
    WInv lossy (es.foldl wstep s) (acc ++ accepted s es) := by
  induction es generalizing s acc with
  | nil => simpa [accepted] using h
  | cons e t ih =>
    have he : lossy = false → e.succeeds = true :=
      fun hl => hok hl e (List.mem_cons_self _ _)
    have ht : lossy = false → ∀ x ∈ t, x.succeeds = true :=
      fun hl x hx => hok hl x (List.mem_cons_of_mem _ hx)
    have := ih (wstep s e) (acc ++ acceptedBy s e) ht (wstep_inv lossy s acc e he h)
    simpa [accepted, List.append_assoc] using this

theorem winit_inv {U : Type} (lossy : Bool) : WInv lossy (winit (U := U)) [] :=
  ⟨[], [], by simp, by simp [winit, frames], by simp [winit], by simp [winit, pcOk]⟩

theorem inflight_of_pcOk (pc : WPc) (cur : List Bytes) (len : Nat)
    (h : pcOk false pc cur len) : inflight pc = cur.flatten := by
  cases pc with
  | select =>
    have hc : cur = [] := h
    simp [inflight, hc]
  | returned =>
    have hc : cur = [] := by
      rcases (h : false = true ∨ cur = []) with h | h
      · cases h
      · exact h
    simp [inflight, hc]
  | haveWriter w => exact (h : cur ≠ [] ∧ w = cur.flatten).2
  | draining w i n => exact (h : cur ≠ [] ∧ w = cur.flatten ∧ n - i ≤ len).2.1

/-- The loop of lines 113-115: as many turns as payloads were counted empty the queue into
the open frame, in queue order. -/
theorem drain_run {U : Type} (q : List Bytes) (closed : Bool) (trace : List (Action U))
    (w : Bytes) (i n : Nat) (hn : n = i + q.length) :
    (List.replicate q.length WEvent.deq).foldl wstep
        ({ queue := q, closed := closed, pc := .draining w i n, trace := trace } : WState U)
      = { queue := [], closed := closed, pc := .draining (w ++ q.flatten) n n,
          trace := trace } := by
  induction q generalizing w i with
  | nil => simp at hn; subst hn; simp
  | cons p rest ih =>
    have hlt : i < n := by simp at hn; omega
    have hn' : n = (i + 1) + rest.length := by simp at hn; omega
    simp only [List.length_cons, List.replicate_succ, List.foldl_cons, wstep, hlt, if_true]
    rw [ih (w ++ p) (i + 1) hn']
    simp [List.append_assoc]

/-- One pass of the writer from `select` with `message :: rest` queued: the frame written is
`message` followed by the payloads queued at that instant, and the queue is left empty. -/
theorem oneFrame_run {U : Type} (message : Bytes) (rest : List Bytes) (closed : Bool)
    (trace : List (Action U)) (now : Nat) :
    (oneFrame now rest.length).foldl wstep
        ({ queue := message :: rest, closed := closed, pc := .select, trace := trace }
          : WState U)
      = { queue := [], closed := closed, pc := .select,
          trace := trace ++ [.setWriteDeadline (now + writeWait),
            .writeMessage .binary (message :: rest).flatten] } := by
  simp only [oneFrame, List.foldl_append, List.foldl_cons, List.foldl_nil, wstep, if_true]
  rw [drain_run rest closed _ message 0 rest.length (by simp)]
  simp [wstep]

theorem accepted_append {U : Type} (es more : List WEvent) (s : WState U) :
    accepted s (es ++ more) = accepted s es ++ accepted (es.foldl wstep s) more := by
  induction es generalizing s with
  | nil => simp [accepted]
  | cons e t ih => simp [accepted, ih, List.append_assoc]

theorem accepted_of_no_enqueue {U : Type} (es : List WEvent) (s : WState U)
    (h : ∀ e ∈ es, ∀ p, e ≠ .enqueue p) : accepted s es = [] := by
  induction es generalizing s with
  | nil => rfl
  | cons e t ih =>
    have ht : ∀ x ∈ t, ∀ p, x ≠ .enqueue p := fun x hx => h x (List.mem_cons_of_mem _ hx)
    have he := h e (List.mem_cons_self _ _)
    cases e with
    | enqueue p => exact absurd rfl (he p)
    | _ => simp [accepted, acceptedBy, ih _ ht]

/-- A pass of the writer sends nothing on the channel. -/
theorem accepted_append_oneFrame {U : Type} (es : List WEvent) (s : WState U) (now k : Nat) :
    accepted s (es ++ oneFrame now k) = accepted s es := by
  have h : accepted (es.foldl wstep s) (oneFrame now k) = [] := by
    apply accepted_of_no_enqueue
    intro e he p
    simp only [oneFrame, List.mem_append, List.mem_cons, List.mem_singleton,
      List.mem_replicate, List.not_mem_nil, or_false] at he
    rcases he with (he | he) | he
    · rcases he with he | he <;> simp [he]
    · simp [he.2]
    · simp [he]
  rw [accepted_append, h, List.append_nil]

/-- Channel sends that fit the buffer of an open channel are appended to the queue in send
order and are all accepted. -/
theorem enqueue_run {U : Type} (ps : List Bytes) (queue : List Bytes) (pc : WPc)
    (trace : List (Action U)) (h : queue.length + ps.length ≤ sendCap) :
    (ps.map WEvent.enqueue).foldl wstep
        ({ queue := queue, closed := false, pc := pc, trace := trace } : WState U)
      = { queue := queue ++ ps, closed := false, pc := pc, trace := trace } ∧
    accepted ({ queue := queue, closed := false, pc := pc, trace := trace } : WState U)
        (ps.map WEvent.enqueue) = ps := by
  induction ps generalizing queue with
  | nil => simp [accepted]
  | cons p t ih =>
    have hlt : queue.length < sendCap := by simp at h; omega
    have hc : canSend ({ queue := queue, closed := false, pc := pc, trace := trace }
        : WState U) = true := by simp [canSend, hlt]
    have ht : (queue ++ [p]).length + t.length ≤ sendCap := by simp at h ⊢; omega
    obtain ⟨h1, h2⟩ := ih (queue ++ [p]) ht
    constructor
    · simp only [List.map_cons, List.foldl_cons, wstep, hc, if_true]
      rw [h1]; simp
    · simp only [List.map_cons, accepted, acceptedBy, wstep, hc, if_true]
      rw [h2]; simp

/-- The loop of lines 113-115 takes the payloads that were counted and leaves those that
arrived after the count in the queue. -/
theorem drain_run_tail {U : Type} (q extra : List Bytes) (closed : Bool)
    (trace : List (Action U)) (w : Bytes) (i n : Nat) (hn : n = i + q.length) :
    (List.replicate q.length WEvent.deq).foldl wstep
        ({ queue := q ++ extra, closed := closed, pc := .draining w i n, trace := trace }
          : WState U)
      = { queue := extra, closed := closed, pc := .draining (w ++ q.flatten) n n,
          trace := trace } := by
  induction q generalizing w i with
  | nil => simp at hn; subst hn; simp
  | cons p rest ih =>
    have hlt : i < n := by simp at hn; omega
    have hn' : n = (i + 1) + rest.length := by simp at hn; omega
    simp only [List.length_cons, List.replicate_succ, List.foldl_cons, List.cons_append, wstep,
      hlt, if_true]
    rw [ih (w ++ p) (i + 1) hn']
    simp [List.append_assoc]

/-- One pass of the writer with sends in between: the frame written is the payload received
followed by the payloads queued when the length is read, those sent before that instant
included; the payloads sent after it stay in the queue. -/
theorem onePass_run {U : Type} (message : Bytes) (rest early late : List Bytes)
    (trace : List (Action U)) (now : Nat)
    (hcap : rest.length + early.length + late.length ≤ sendCap) :
    (onePass now early late (rest.length + early.length)).foldl wstep
        ({ queue := message :: rest, closed := false, pc := .select, trace := trace }
          : WState U)
      = { queue := late, closed := false, pc := .select,
          trace := trace ++ [.setWriteDeadline (now + writeWait),
            .writeMessage .binary (message :: (rest ++ early)).flatten] } := by
  have h1 := (enqueue_run (U := U) early rest (.haveWriter message)
    (trace ++ [.setWriteDeadline (now + writeWait)]) (by omega)).1
  have h2 := (enqueue_run (U := U) late (rest ++ early)
    (.draining message 0 (rest ++ early).length)
    (trace ++ [.setWriteDeadline (now + writeWait)]) (by simp; omega)).1
  have h3 := drain_run_tail (U := U) (rest ++ early) late false
    (trace ++ [.setWriteDeadline (now + writeWait)]) message 0 (rest ++ early).length (by simp)
  have hk : rest.length + early.length = (rest ++ early).length := by simp
  simp only [onePass, List.foldl_append, List.foldl_cons, List.foldl_nil, wstep, if_true]
  rw [h1]
  simp only [wstep]
  rw [h2, hk, h3]
  simp [wstep]

/-- The sends of a pass that fit the buffer are all accepted. -/
theorem accepted_onePass {U : Type} (message : Bytes) (rest early late : List Bytes)
    (trace : List (Action U)) (now : Nat)
    (hcap : rest.length + early.length + late.length ≤ sendCap) :
    accepted ({ queue := message :: rest, closed := false, pc := .select, trace := trace }
        : WState U) (onePass now early late (rest.length + early.length))
      = early ++ late := by
  have h1 := enqueue_run (U := U) early rest (.haveWriter message)
    (trace ++ [.setWriteDeadline (now + writeWait)]) (by omega)
  have h2 := enqueue_run (U := U) late (rest ++ early)
    (.draining message 0 (rest ++ early).length)
    (trace ++ [.setWriteDeadline (now + writeWait)]) (by simp; omega)
  have h3 : ∀ (s : WState U) (k : Nat),
      accepted s (List.replicate k WEvent.deq ++ [WEvent.flush true]) = [] := by
    intro s k
    apply accepted_of_no_enqueue
    intro e he p
    simp only [List.mem_append, List.mem_replicate, List.mem_singleton] at he
    rcases he with he | he
    · simp [he.2]
    · simp [he]
  have hcons : ∀ (s : WState U) (e : WEvent) (es : List WEvent),
      accepted s (e :: es) = acceptedBy s e ++ accepted (wstep s e) es := fun _ _ _ => rfl
  have hshape : onePass now early late (rest.length + early.length)
      = .recv now true :: (early.map WEvent.enqueue ++ (.len :: (late.map WEvent.enqueue
          ++ (List.replicate (rest.length + early.length) WEvent.deq
            ++ [WEvent.flush true])))) := by
    simp [onePass]
  rw [hshape, hcons, accepted_append]
  simp only [wstep, acceptedBy, if_true, List.nil_append]
  rw [h1.2, h1.1, hcons, accepted_append]
  simp only [wstep, acceptedBy, List.nil_append]
  rw [h2.2, h3, List.append_nil]

/-- A writer that has returned writes nothing more. -/
theorem returned_stays {U : Type} (more : List WEvent) (s : WState U)
    (h : s.pc = .returned) :
    (more.foldl wstep s).pc = .returned ∧ (more.foldl wstep s).trace = s.trace := by
  induction more generalizing s with
  | nil => exact ⟨h, rfl⟩
  | cons e t ih =>
    have hstep : (wstep s e).pc = .returned ∧ (wstep s e).trace = s.trace := by
      obtain ⟨queue, closed, pc, trace⟩ := s
      simp only at h
      subst h
      cases e <;> simp [wstep]
      split <;> simp
    obtain ⟨h1, h2⟩ := ih (wstep s e) hstep.1
    exact ⟨h1, by rw [List.foldl_cons, h2, hstep.2]⟩

/-! ## The claims about `readPump` -/

/-- C1, as amended: for every frame read whose decoding fails, the loop broadcasts the raw
frame, logs the decoding error, still calls `HandleEvent` with the event that `Unmarshal` left
behind, and goes on with the rest of the script (the connection stays alive). -/
theorem readLoop_decode_failure_still_dispatches {U : Type} (unmarshal : Unmarshal U)
    (pre post : List ReadEvt) (now : Nat) (frame : Bytes) (e : Err)
    (hpre : ∀ x ∈ pre, x.isFail = false) (hdec : (unmarshal frame).2 = some e) :
    readLoop unmarshal (pre ++ .message now frame :: post)
      = ((readLoop unmarshal pre).1
          ++ [.broadcast frame, .logPrintln e, .handleEvent (unmarshal frame).1]
          ++ (readLoop unmarshal post).1,
         (readLoop unmarshal post).2) := by
  rw [readLoop_append unmarshal pre _ hpre]
  simp [readLoop, hdec, logIfErr]

/-- C1, witness: the amended statement at a frame that the sample decoder rejects. -/
theorem readLoop_decode_failure_still_dispatches_witness :
    readLoop sampleUnmarshal ([.pong 3] ++ .message 5 [255] :: [.message 6 [1, 7]])
      = ((readLoop sampleUnmarshal [.pong 3]).1
          ++ [.broadcast [255],
              .logPrintln (.other "proto: cannot parse invalid wire-format data"),
              .handleEvent (sampleUnmarshal [255]).1]
          ++ (readLoop sampleUnmarshal [.message 6 [1, 7]]).1,
         (readLoop sampleUnmarshal [.message 6 [1, 7]]).2) :=
  readLoop_decode_failure_still_dispatches sampleUnmarshal [.pong 3] [.message 6 [1, 7]] 5 [255]
    (.other "proto: cannot parse invalid wire-format data") (by decide) (by decide)

/-- C1, counterexample: the frame `[255]` fails to decode, and `HandleEvent` is called for it
all the same (with the empty event), so dispatch is not skipped. -/
theorem readLoop_decode_failure_not_skipped :
    (sampleUnmarshal [255]).2 ≠ none ∧
    dispatched (readLoop sampleUnmarshal [.message 5 [255]]).1 = [zeroEvent] ∧
    dispatched (readLoop sampleUnmarshal [.message 5 [255]]).1 ≠ [] := by
  decide

/-- C2: whatever the script, the loop submits to `hub.broadcast` exactly the frames read, each
once, verbatim and in read order, whether or not they decode; it passes to `HandleEvent`, in
the same order, the event decoded from each frame, so a frame that decodes is forwarded as its
decoded event; and for a frame that decodes the broadcast and the dispatch are adjacent. -/
theorem readLoop_relays_and_dispatches {U : Type} (unmarshal : Unmarshal U)
    (reads : List ReadEvt) :
    broadcasts (readLoop unmarshal reads).1 = framesRead reads ∧
    dispatched (readLoop unmarshal reads).1
      = (framesRead reads).map (fun m => (unmarshal m).1) ∧
    (∀ now frame rest, (unmarshal frame).2 = none →
      (readLoop unmarshal (.message now frame :: rest)).1
        = .broadcast frame :: .handleEvent (unmarshal frame).1
            :: (readLoop unmarshal rest).1) := by
  refine ⟨broadcasts_readLoop unmarshal reads, dispatched_readLoop unmarshal reads, ?_⟩
  intro now frame rest h
  simp [readLoop, h, logIfErr]

/-- C3, as amended: in a connection lifetime (an error-free prefix of reads followed by a
terminal read error) `readPump` synthesizes one exit event of its own; the inbound frames are
relayed and dispatched unfiltered, so the exit events with the connection's id passed to
`HandleEvent` number one plus the inbound frames decoding to it, and the broadcasts of its
encoding number one plus the inbound frames equal to it; `writePump` dispatches and
broadcasts nothing, whatever its schedule. -/
theorem readPump_exit_count {U : Type} [DecidableEq U] (c : Client) (marshal : Marshal U)
    (unmarshal : Unmarshal U) (now : Nat) (pre post : List ReadEvt) (e : Err)
    (hpre : ∀ x ∈ pre, x.isFail = false) :
    (dispatched (readPump c marshal unmarshal now (pre ++ .fail e :: post))).count
        (exitEvent c.id)
      = 1 + ((framesRead pre).map (fun m => (unmarshal m).1)).count (exitEvent c.id) ∧
    (broadcasts (readPump c marshal unmarshal now (pre ++ .fail e :: post))).count
        (marshal (exitEvent c.id)).1
      = 1 + (framesRead pre).count (marshal (exitEvent c.id)).1 ∧
    (∀ es : List WEvent, dispatched (writePump (U := U) es).trace = [] ∧
      broadcasts (writePump (U := U) es).trace = []) := by
  refine ⟨?_, ?_, ?_⟩
  · rw [readPump_of_fail c marshal unmarshal now pre post e hpre]
    simp [dispatched_append, dispatched_readLoop, dispatched_logReadErr, readPumpSetup,
      readPumpDeferred, dispatched_logIfErr, dispatched, List.count_append, Nat.add_comm]
  · rw [readPump_of_fail c marshal unmarshal now pre post e hpre]
    simp [broadcasts_append, broadcasts_readLoop, broadcasts_logReadErr, readPumpSetup,
      readPumpDeferred, broadcasts_logIfErr, broadcasts, List.count_append, Nat.add_comm]
  · intro es
    exact writePump_silent es

/-- C3, witness: the amended count on a lifetime whose single inbound frame decodes to the
connection's own exit event. -/
theorem readPump_exit_count_witness :
    (∀ x ∈ [ReadEvt.message 1 [2, 112, 49]], x.isFail = false) ∧
    ((dispatched (readPump ⟨"p1"⟩ sampleMarshal sampleUnmarshal 0
        ([.message 1 [2, 112, 49]] ++ .fail (.other "EOF") :: []))).count (exitEvent "p1")
      = 1 + ((framesRead [.message 1 [2, 112, 49]]).map
          (fun m => (sampleUnmarshal m).1)).count (exitEvent "p1") ∧
    (broadcasts (readPump ⟨"p1"⟩ sampleMarshal sampleUnmarshal 0
        ([.message 1 [2, 112, 49]] ++ .fail (.other "EOF") :: []))).count
        (sampleMarshal (exitEvent "p1")).1
      = 1 + (framesRead [.message 1 [2, 112, 49]]).count (sampleMarshal (exitEvent "p1")).1 ∧
    (∀ es : List WEvent, dispatched (writePump (U := Nat) es).trace = [] ∧
      broadcasts (writePump (U := Nat) es).trace = [])) :=
  ⟨by decide,
   readPump_exit_count ⟨"p1"⟩ sampleMarshal sampleUnmarshal 0 [.message 1 [2, 112, 49]] []
     (.other "EOF") (by decide)⟩

/-- C3, counterexample: player `p1` sends the encoding of its own exit event and then the
read fails; two exit events for `p1` reach `HandleEvent` and two encodings reach the hub
broadcast, not one. -/
theorem readPump_two_exits :
    sampleUnmarshal [2, 112, 49] = (exitEvent "p1", none) ∧
    (dispatched (readPump ⟨"p1"⟩ sampleMarshal sampleUnmarshal 0
        [.message 1 [2, 112, 49], .fail (.other "EOF")])).count (exitEvent "p1") = 2 ∧
    (broadcasts (readPump ⟨"p1"⟩ sampleMarshal sampleUnmarshal 0
        [.message 1 [2, 112, 49], .fail (.other "EOF")])).count
        (sampleMarshal (exitEvent "p1")).1 = 2 := by
  decide

/-- C4: when the read loop ends (an error-free prefix of reads followed by a read error),
`readPump` runs its closing sequence once, after everything else and in this order: the event
of type exit whose data is the exit payload with the connection's id goes to `HandleEvent`,
the bytes `Marshal` returned for that event go to `hub.broadcast`, the client goes to
`hub.unregister`, the socket is closed. The client is unregistered exactly once, nothing
before the closing sequence unregisters or closes, reads scripted after the error are never
looked at, and neither `writePump` nor `serveWs` ever unregisters. -/
theorem readPump_closing_sequence {U : Type} (c : Client) (marshal : Marshal U)
    (unmarshal : Unmarshal U) (now : Nat) (pre post : List ReadEvt) (e : Err)
    (hpre : ∀ x ∈ pre, x.isFail = false) :
    readPump c marshal unmarshal now (pre ++ .fail e :: post)
      = (readPumpSetup now ++ ((readLoop unmarshal pre).1 ++ logReadErr e))
          ++ (logIfErr (marshal { type := .exit, data := .exit c.id }).2
            ++ [.handleEvent { type := .exit, data := .exit c.id },
                .broadcast (marshal { type := .exit, data := .exit c.id }).1,
                .unregister c, .connClose]) ∧
    unregistered (readPumpSetup (U := U) now ++ ((readLoop unmarshal pre).1 ++ logReadErr e))
      = [] ∧
    Action.connClose ∉ readPumpSetup (U := U) now ++ ((readLoop unmarshal pre).1 ++ logReadErr e) ∧
    unregistered (readPump c marshal unmarshal now (pre ++ .fail e :: post)) = [c] ∧
    dispatched (readPump c marshal unmarshal now (pre ++ .fail e :: post))
      = (framesRead pre).map (fun m => (unmarshal m).1)
          ++ [{ type := .exit, data := .exit c.id }] ∧
    broadcasts (readPump c marshal unmarshal now (pre ++ .fail e :: post))
      = framesRead pre ++ [(marshal { type := .exit, data := .exit c.id }).1] ∧
    (∀ es : List WEvent, unregistered (writePump (U := U) es).trace = []) ∧
    (∀ (upgradeErr : Option Err) (addPlayer : AddPlayer U) (world : World U),
      unregistered (serveWs upgradeErr addPlayer marshal world).1 = []) := by
  have hrun := readPump_of_fail c marshal unmarshal now pre post e hpre
  have hclose : Action.connClose ∉ logReadErr (U := U) e := by
    unfold logReadErr; split <;> simp
  refine ⟨?_, ?_, ?_, ?_, ?_, ?_, writePump_no_unregister, ?_⟩
  rotate_right
  · intro upgradeErr addPlayer world
    cases upgradeErr with
    | some x => rfl
    | none =>
      simp [serveWs, unregistered_append, unregistered_logIfErr, unregistered]
  · rw [hrun]; rfl
  · simp [unregistered_append, unregistered_readLoop, unregistered_logReadErr, readPumpSetup,
      unregistered]
  · simp [readPumpSetup, connClose_not_mem_readLoop, hclose]
  · rw [hrun]
    simp [unregistered_append, unregistered_readLoop, unregistered_logReadErr, readPumpSetup,
      readPumpDeferred, unregistered_logIfErr, unregistered]
  · rw [hrun]
    simp [dispatched_append, dispatched_readLoop, dispatched_logReadErr, readPumpSetup,
      readPumpDeferred, dispatched_logIfErr, dispatched, exitEvent]
  · rw [hrun]
    simp [broadcasts_append, broadcasts_readLoop, broadcasts_logReadErr, readPumpSetup,
      readPumpDeferred, broadcasts_logIfErr, broadcasts, exitEvent]

/-- C4, witness: player `p1` sends two frames, then the read fails with an unexpected close
error; the run, written out in full, ends with the exit event of `p1` passed to `HandleEvent`,
its encoding broadcast, the unregistration and the close, and a read scripted after the error
leaves no trace. -/
theorem readPump_closing_sequence_witness :
    (∀ x ∈ [ReadEvt.message 1 [1, 7], ReadEvt.message 2 [255]], x.isFail = false) ∧
    readPump ⟨"p1"⟩ sampleMarshal sampleUnmarshal 0
        ([.message 1 [1, 7], .message 2 [255]] ++ .fail (.closeError 1000) :: [.message 3 [1]])
      = [.setReadLimit 512, .setReadDeadline 60000000000, .setPongHandler,
         .broadcast [1, 7],
         .handleEvent { type := .connect, data := .connect (some 7) },
         .broadcast [255],
         .logPrintln (.other "proto: cannot parse invalid wire-format data"),
         .handleEvent { type := .init, data := .none },
         .logPrintf (.closeError 1000),
         .handleEvent { type := .exit, data := .exit "p1" },
         .broadcast [2, 112, 49],
         .unregister ⟨"p1"⟩,
         .connClose] ∧
    unregistered (readPump ⟨"p1"⟩ sampleMarshal sampleUnmarshal 0
        ([.message 1 [1, 7], .message 2 [255]] ++ .fail (.closeError 1000) :: [.message 3 [1]]))
      = [⟨"p1"⟩] ∧
    dispatched (readPump ⟨"p1"⟩ sampleMarshal sampleUnmarshal 0
        ([.message 1 [1, 7], .message 2 [255]] ++ .fail (.closeError 1000) :: [.message 3 [1]]))
      = [{ type := .connect, data := .connect (some 7) }, { type := .init, data := .none },
         { type := .exit, data := .exit "p1" }] ∧
    broadcasts (readPump ⟨"p1"⟩ sampleMarshal sampleUnmarshal 0
        ([.message 1 [1, 7], .message 2 [255]] ++ .fail (.closeError 1000) :: [.message 3 [1]]))
      = [[1, 7], [255], [2, 112, 49]] :=
  ⟨by decide,
   (readPump_closing_sequence ⟨"p1"⟩ sampleMarshal sampleUnmarshal 0
     [.message 1 [1, 7], .message 2 [255]] [.message 3 [1]] (.closeError 1000)
     (by decide)).1,
   (readPump_closing_sequence ⟨"p1"⟩ sampleMarshal sampleUnmarshal 0
     [.message 1 [1, 7], .message 2 [255]] [.message 3 [1]] (.closeError 1000)
     (by decide)).2.2.2.1,
   (readPump_closing_sequence ⟨"p1"⟩ sampleMarshal sampleUnmarshal 0
     [.message 1 [1, 7], .message 2 [255]] [.message 3 [1]] (.closeError 1000)
     (by decide)).2.2.2.2.1,
   (readPump_closing_sequence ⟨"p1"⟩ sampleMarshal sampleUnmarshal 0
     [.message 1 [1, 7], .message 2 [255]] [.message 3 [1]] (.closeError 1000)
     (by decide)).2.2.2.2.2.1⟩

/-- C7, as amended: `readPump` sets the read deadline to the current time plus `pongWait`
(60 s) once before the loop and once at every pong received, and at no other point: a data
frame leaves the deadline as it was. The deadline in force is therefore the time of the last
pong (of the start, when there was none) plus 60 s. -/
theorem readPump_deadline_resets {U : Type} (c : Client) (marshal : Marshal U)
    (unmarshal : Unmarshal U) (now : Nat) (reads : List ReadEvt) :
    deadlineSets (readPump c marshal unmarshal now reads)
      = (now :: pongTimes reads).map (fun t => t + pongWait) ∧
    readDeadline (readPump c marshal unmarshal now reads)
      = ((now :: pongTimes reads).map (fun t => t + pongWait)).getLast? ∧
    pongWait = 60 * second ∧
    (∀ t frame rest, deadlineSets (readLoop unmarshal (.message t frame :: rest)).1
      = deadlineSets (readLoop unmarshal rest).1) ∧
    (∀ t rest, deadlineSets (readLoop unmarshal (.pong t :: rest)).1
      = (t + pongWait) :: deadlineSets (readLoop unmarshal rest).1) := by
  have h1 : deadlineSets (readPump c marshal unmarshal now reads)
      = (now :: pongTimes reads).map (fun t => t + pongWait) := by
    unfold readPump
    cases hb : (readLoop unmarshal reads).2 <;>
      simp [hb, deadlineSets_append, deadlineSets_readLoop, readPumpSetup, readPumpDeferred,
        deadlineSets_logIfErr, deadlineSets]
  refine ⟨h1, ?_, rfl, ?_, ?_⟩
  · rw [readDeadline, h1]
  · intro t frame rest
    simp [readLoop, deadlineSets, deadlineSets_append, deadlineSets_logIfErr]
  · intro t rest
    simp [readLoop, deadlineSets]

/-- C7, counterexample: a peer whose data frames arrive at 30 s and at 59 s after the start
and who sends no pong still has the deadline of the start, 60 s, in force; the deadline was
not moved to 59 s + 60 s by the frames. -/
theorem readPump_frame_keeps_deadline :
    readDeadline (readPump ⟨"p1"⟩ sampleMarshal sampleUnmarshal 0
        [.message (30 * second) [1, 7], .message (59 * second) [1, 8]])
      = some (60 * second) ∧
    readDeadline (readPump ⟨"p1"⟩ sampleMarshal sampleUnmarshal 0
        [.message (30 * second) [1, 7], .message (59 * second) [1, 8]])
      ≠ some (59 * second + pongWait) := by
  decide

/-! ## The constants -/

/-- C9: the keep-alive constants in nanoseconds: `pongWait` is 60 s, `pingPeriod` is exactly
54 s, which is nine tenths of `pongWait` and strictly less than it, `writeWait` is 10 s,
`maxMessageSize` is 512, and the intermediate product fits a 64-bit duration. -/
theorem keepalive_constants :
    second = 10 ^ 9 ∧
    pongWait = 60 * second ∧
    pingPeriod = 54 * second ∧
    10 * pingPeriod = 9 * pongWait ∧
    pingPeriod < pongWait ∧
    writeWait = 10 * second ∧
    maxMessageSize = 512 ∧
    pongWait * 9 < 2 ^ 63 := by
  refine ⟨?_, ?_, ?_, ?_, ?_, ?_, ?_, ?_⟩ <;>
    norm_num [second, pongWait, pingPeriod, writeWait, maxMessageSize]

/-! ## The claims about `serveWs` -/

theorem mem_of_lookup {U : Type} (l : List (String × U)) (k : String) (u : U)
    (h : l.lookup k = some u) : (k, u) ∈ l := by
  induction l with
  | nil => simp at h
  | cons kv t ih =>
    obtain ⟨k1, v1⟩ := kv
    by_cases hk : k = k1
    · subst hk
      simp [List.lookup] at h
      simp [h]
    · have hb : (k == k1) = false := by simpa using hk
      simp [List.lookup, hb] at h
      exact List.mem_cons_of_mem _ (ih h)

/-- C5, as amended: after a successful upgrade `serveWs` performs, apart from error
logging, exactly these steps in this order: `AddPlayer` returns the id, the client is sent to
`hub.register`, the bytes `Marshal` returned for the event of type init carrying the new id
and the unit map are written to the connection's own socket, the bytes `Marshal` returned for
the event of type connect carrying the unit stored under the new id are sent to
`hub.broadcast`, `writePump` and `readPump` are started. The one broadcast of the run comes
after the socket write of the init event has been issued. The result of that write is
discarded: when it succeeded the peer has received exactly the init bytes by the time of the
broadcast, when it failed the peer has received nothing and the steps are the same. A failed
upgrade does nothing but log. -/
theorem serveWs_handshake_order {U : Type} (addPlayer : AddPlayer U) (marshal : Marshal U)
    (world : World U) :
    (serveWs none addPlayer marshal world).1.filter (fun a => !a.isLog)
      = [.addPlayer (addPlayer world).1,
         .register ⟨(addPlayer world).1⟩,
         .writeMessage .binary
           (marshal { type := .init,
                      data := .init (addPlayer world).1 (addPlayer world).2.units }).1,
         .broadcast
           (marshal { type := .connect,
                      data := .connect
                        ((addPlayer world).2.units.lookup (addPlayer world).1) }).1,
         .goWritePump ⟨(addPlayer world).1⟩,
         .goReadPump ⟨(addPlayer world).1⟩] ∧
    (∃ before after, (serveWs none addPlayer marshal world).1
        = before ++ .writeMessage .binary
            (marshal { type := .init,
                       data := .init (addPlayer world).1 (addPlayer world).2.units }).1
            :: after ∧
      broadcasts before = [] ∧ frames before = [] ∧
      broadcasts after
        = [(marshal { type := .connect,
                      data := .connect
                        ((addPlayer world).2.units.lookup (addPlayer world).1) }).1] ∧
      frames after = []) ∧
    serveWsReceived none addPlayer marshal world
      = [(marshal { type := .init,
                    data := .init (addPlayer world).1 (addPlayer world).2.units }).1] ∧
    (∀ e, serveWsReceived (some e) addPlayer marshal world = []) ∧
    (∀ e, serveWs (some e) addPlayer marshal world = ([.logPrintln e], world)) := by
  have hfl : ∀ o : Option Err, frames (logIfErr (U := U) o) = [] := by
    intro o; cases o <;> rfl
  have hlog : ∀ o : Option Err,
      (logIfErr (U := U) o).filter (fun a => !a.isLog) = [] := by
    intro o; cases o <;> rfl
  refine ⟨?_, ?_, ?_, fun e => rfl, fun e => rfl⟩
  · simp only [serveWs, serveWsInit, serveWsConnect, initEvent, connectEvent,
      List.filter_append, hlog]
    simp [List.filter, Action.isLog]
  · refine ⟨[.addPlayer (addPlayer world).1, .register ⟨(addPlayer world).1⟩]
        ++ logIfErr (marshal (serveWsInit addPlayer world)).2,
      logIfErr (marshal (serveWsConnect addPlayer world)).2
        ++ [.broadcast (marshal (serveWsConnect addPlayer world)).1,
            .goWritePump ⟨(addPlayer world).1⟩, .goReadPump ⟨(addPlayer world).1⟩],
      ?_, ?_, ?_, ?_, ?_⟩
    · simp [serveWs, serveWsInit, initEvent]
    · simp [broadcasts_append, broadcasts_logIfErr, broadcasts]
    · simp [frames_append, hfl, frames]
    · simp [broadcasts_append, broadcasts_logIfErr, broadcasts, serveWsConnect, connectEvent]
    · simp [frames_append, hfl, frames]
  · simp [serveWsReceived, serveWs, frames_append, hfl, frames, serveWsInit, initEvent]

/-- C5, counterexample: the first player joins and the socket write of its init event fails
(the error is discarded at line 155); the peer has received nothing, and the connect event
for its unit is broadcast all the same. -/
theorem serveWs_connect_without_init :
    serveWsReceived (some (.other "write: broken pipe")) (addPlayerWith "p1" 1)
        sampleMarshal ⟨[]⟩ = [] ∧
    broadcasts (serveWs none (addPlayerWith "p1" 1) sampleMarshal ⟨[]⟩).1 = [[1, 1]] ∧
    sampleUnmarshal [1, 1] = ({ type := .connect, data := .connect (some 1) }, none) := by
  decide

/-- C8, as amended: the init event carries the id returned by `AddPlayer` and the unit map as
it stands after `AddPlayer`, and the connect event carries the entry of that same map under
the new id; so whenever the connect event carries the new player's unit, the init snapshot
holds that unit too. With an `AddPlayer` that stores the new unit under the new id, the
first player joining an empty world receives the snapshot `{p1: unit1}` and the second
player `{p1: unit1, p2: unit2}`, and each connect event carries the joiner's own unit. -/
theorem serveWs_init_snapshot {U : Type} (addPlayer : AddPlayer U) (marshal : Marshal U)
    (world : World U) (u1 u2 : U) :
    serveWsInit addPlayer world
      = initEvent (addPlayer world).1 (serveWs none addPlayer marshal world).2.units ∧
    serveWsConnect addPlayer world
      = connectEvent ((serveWs none addPlayer marshal world).2.units.lookup
          (addPlayer world).1) ∧
    (∀ u, serveWsConnect addPlayer world = connectEvent (some u) →
      ((addPlayer world).1, u) ∈ (serveWs none addPlayer marshal world).2.units) ∧
    serveWsInit (addPlayerWith "p1" u1) ⟨[]⟩ = initEvent "p1" [("p1", u1)] ∧
    serveWsConnect (addPlayerWith "p1" u1) ⟨[]⟩ = connectEvent (some u1) ∧
    serveWsInit (addPlayerWith "p2" u2)
        (serveWs none (addPlayerWith "p1" u1) marshal ⟨[]⟩).2
      = initEvent "p2" [("p2", u2), ("p1", u1)] ∧
    serveWsConnect (addPlayerWith "p2" u2)
        (serveWs none (addPlayerWith "p1" u1) marshal ⟨[]⟩).2
      = connectEvent (some u2) := by
  refine ⟨rfl, rfl, ?_, ?_, ?_, ?_, ?_⟩
  · intro u h
    have h' : (addPlayer world).2.units.lookup (addPlayer world).1 = some u := by
      simpa [serveWsConnect, connectEvent] using h
    exact mem_of_lookup _ _ _ h'
  · simp [serveWsInit, addPlayerWith, mapSet]
  · simp [serveWsConnect, addPlayerWith, mapSet, List.lookup]
  · simp [serveWsInit, serveWs, addPlayerWith, mapSet]
  · simp [serveWsConnect, serveWs, addPlayerWith, mapSet, List.lookup]

/-- C8, counterexample: the first player joining an empty world is sent a snapshot that holds
its own unit, not the empty one, and the second player a snapshot of two units, not `{p1: 1}`
alone. -/
theorem serveWs_init_holds_own_unit :
    serveWsInit (addPlayerWith "p1" 1) ⟨[]⟩ = initEvent "p1" [("p1", 1)] ∧
    serveWsInit (addPlayerWith "p1" 1) ⟨[]⟩ ≠ initEvent "p1" [] ∧
    serveWsInit (addPlayerWith "p2" 2)
        (serveWs none (addPlayerWith "p1" 1) sampleMarshal ⟨[]⟩).2
      = initEvent "p2" [("p2", 2), ("p1", 1)] ∧
    serveWsInit (addPlayerWith "p2" 2)
        (serveWs none (addPlayerWith "p1" 1) sampleMarshal ⟨[]⟩).2
      ≠ initEvent "p2" [("p1", 1)] := by
  decide

/-! ## The claims about `writePump` -/

/-- C6, as amended: along every schedule without a failed socket write, the payloads accepted
by the send channel split, in send order, into the groups written as frames, the payloads of
the frame being built, and the queue: each frame is the concatenation of one non-empty group,
nothing is lost, duplicated or reordered, and the frames concatenated, followed by the open
frame and the queue, are the accepted payloads concatenated. Whenever the writer waits in
`select` with `message :: rest` queued, its next pass writes one frame made of `message`
followed by `rest` and empties the queue. Along any schedule at all, failed writes included,
the frames written are the groups of a prefix of the accepted payloads, so that nothing is
ever written twice or out of order. The payloads of a frame are those queued at the instant
the queue length is read: payloads sent between the receive and that instant are part of the
frame, payloads sent after it stay queued for the next frame. When `NextWriter` fails the
payload just received is not written, when the frame's `Close` fails the payloads of that
frame are not written, and in both cases the writer has returned and writes no frame any
more. -/
theorem writePump_fifo {U : Type} (es : List WEvent) (hok : ∀ e ∈ es, e.succeeds = true) :
    (∃ (gs : List (List Bytes)) (cur : List Bytes),
      (∀ g ∈ gs, g ≠ []) ∧
      frames (writePump (U := U) es).trace = gs.map List.flatten ∧
      inflight (writePump (U := U) es).pc = cur.flatten ∧
      gs.flatten ++ cur ++ (writePump (U := U) es).queue = accepted (winit (U := U)) es) ∧
    (frames (writePump (U := U) es).trace).flatten ++ inflight (writePump (U := U) es).pc
        ++ (writePump (U := U) es).queue.flatten
      = (accepted (winit (U := U)) es).flatten ∧
    (∀ now message rest, (writePump (U := U) es).pc = .select →
      (writePump (U := U) es).queue = message :: rest →
      frames (writePump (U := U) (es ++ oneFrame now rest.length)).trace
        = frames (writePump (U := U) es).trace ++ [(message :: rest).flatten] ∧
      (writePump (U := U) (es ++ oneFrame now rest.length)).queue = [] ∧
      (writePump (U := U) (es ++ oneFrame now rest.length)).pc = .select ∧
      accepted (winit (U := U)) (es ++ oneFrame now rest.length)
        = accepted (winit (U := U)) es) ∧
    (∀ any : List WEvent, ∃ (gs : List (List Bytes)) (left : List Bytes),
      (∀ g ∈ gs, g ≠ []) ∧
      frames (writePump (U := U) any).trace = gs.map List.flatten ∧
      accepted (winit (U := U)) any = gs.flatten ++ left) ∧
    (∀ now message rest early late, (writePump (U := U) es).pc = .select →
      (writePump (U := U) es).queue = message :: rest →
      (writePump (U := U) es).closed = false →
      rest.length + early.length + late.length ≤ sendCap →
      frames (writePump (U := U)
          (es ++ onePass now early late (rest.length + early.length))).trace
        = frames (writePump (U := U) es).trace ++ [(message :: (rest ++ early)).flatten] ∧
      (writePump (U := U)
          (es ++ onePass now early late (rest.length + early.length))).queue = late ∧
      (writePump (U := U)
          (es ++ onePass now early late (rest.length + early.length))).pc = .select ∧
      accepted (winit (U := U)) (es ++ onePass now early late (rest.length + early.length))
        = accepted (winit (U := U)) es ++ (early ++ late)) ∧
    (∀ now message rest more, (writePump (U := U) es).pc = .select →
      (writePump (U := U) es).queue = message :: rest →
      (writePump (U := U) (es ++ [.recv now false])).queue = rest ∧
      (writePump (U := U) (es ++ .recv now false :: more)).pc = .returned ∧
      frames (writePump (U := U) (es ++ .recv now false :: more)).trace
        = frames (writePump (U := U) es).trace) ∧
    (∀ w i n more, (writePump (U := U) es).pc = .draining w i n → ¬ i < n →
      (writePump (U := U) (es ++ .flush false :: more)).pc = .returned ∧
      frames (writePump (U := U) (es ++ .flush false :: more)).trace
        = frames (writePump (U := U) es).trace) := by
  have hinv : WInv false (writePump (U := U) es) ([] ++ accepted (winit (U := U)) es) :=
    foldl_wstep_inv false es (winit (U := U)) [] (fun _ => hok) (winit_inv false)
  obtain ⟨gs, cur, hgs, hfr, hacc, hpc⟩ := hinv
  have hin := inflight_of_pcOk _ _ _ hpc
  simp only [List.nil_append] at hacc
  refine ⟨⟨gs, cur, hgs, hfr, hin, hacc⟩, ?_, ?_, ?_, ?_, ?_, ?_⟩
  · have hflat : ∀ l : List (List Bytes), (l.map List.flatten).flatten = l.flatten.flatten := by
      intro l
      induction l with
      | nil => rfl
      | cons g t ih => simp [ih]
    rw [hfr, hin, ← hacc]
    simp [List.flatten_append, hflat]
  · intro now message rest hpc hq
    have hs : writePump (U := U) es
        = { queue := message :: rest, closed := (writePump (U := U) es).closed, pc := .select,
            trace := (writePump (U := U) es).trace } := by
      rw [← hpc, ← hq]
    have hrun : writePump (U := U) (es ++ oneFrame now rest.length)
        = (oneFrame now rest.length).foldl wstep (writePump (U := U) es) := by
      simp [writePump, List.foldl_append]
    rw [hrun, hs, oneFrame_run]
    refine ⟨?_, rfl, rfl, ?_⟩
    · simp [frames_append, frames]
    · exact accepted_append_oneFrame es winit now rest.length
  · intro any
    have hany : WInv true (writePump (U := U) any) ([] ++ accepted (winit (U := U)) any) :=
      foldl_wstep_inv true any (winit (U := U)) [] (fun h => by cases h) (winit_inv true)
    obtain ⟨gs', cur', hgs', hfr', hacc', _⟩ := hany
    exact ⟨gs', cur' ++ (writePump (U := U) any).queue, hgs', hfr',
      by simpa [List.append_assoc] using hacc'.symm⟩
  · intro now message rest early late hpc' hq hcl hcap
    have hs : writePump (U := U) es
        = { queue := message :: rest, closed := false, pc := .select,
            trace := (writePump (U := U) es).trace } := by
      rw [← hpc', ← hq, ← hcl]
    have hrun : writePump (U := U) (es ++ onePass now early late (rest.length + early.length))
        = (onePass now early late (rest.length + early.length)).foldl wstep
            (writePump (U := U) es) := by
      simp [writePump, List.foldl_append]
    have hacc2 : accepted (winit (U := U))
          (es ++ onePass now early late (rest.length + early.length))
        = accepted (winit (U := U)) es ++ (early ++ late) := by
      rw [accepted_append]
      show _ ++ accepted (writePump (U := U) es) _ = _
      rw [hs, accepted_onePass message rest early late _ now hcap]
    rw [hrun, hs, onePass_run message rest early late _ now hcap]
    exact ⟨by simp [frames_append, frames], rfl, rfl, hacc2⟩
  · intro now message rest more hpc' hq
    have hs : writePump (U := U) es
        = { queue := message :: rest, closed := (writePump (U := U) es).closed, pc := .select,
            trace := (writePump (U := U) es).trace } := by
      rw [← hpc', ← hq]
    have h1 : writePump (U := U) (es ++ [.recv now false])
        = wstep (writePump (U := U) es) (.recv now false) := by
      simp [writePump, List.foldl_append]
    have h2 : writePump (U := U) (es ++ .recv now false :: more)
        = more.foldl wstep (wstep (writePump (U := U) es) (.recv now false)) := by
      simp [writePump, List.foldl_append]
    have hst : wstep (writePump (U := U) es) (.recv now false)
        = { queue := rest, closed := (writePump (U := U) es).closed, pc := .returned,
            trace := (writePump (U := U) es).trace
              ++ [.setWriteDeadline (now + writeWait)] ++ [.tickerStop, .connClose] } := by
      rw [hs]; simp [wstep, wreturn]
    obtain ⟨hr1, hr2⟩ := returned_stays more
      (wstep (writePump (U := U) es) (.recv now false)) (by rw [hst])
    refine ⟨by rw [h1, hst], by rw [h2]; exact hr1, ?_⟩
    rw [h2, hr2, hst]
    simp [frames_append, frames]
  · intro w i n more hpc' hlt
    have h2 : writePump (U := U) (es ++ .flush false :: more)
        = more.foldl wstep (wstep (writePump (U := U) es) (.flush false)) := by
      simp [writePump, List.foldl_append]
    have hst : (wstep (writePump (U := U) es) (.flush false)).pc = .returned ∧
        (wstep (writePump (U := U) es) (.flush false)).trace
          = (writePump (U := U) es).trace ++ [.tickerStop, .connClose] := by
      simp [wstep, hpc', hlt, wreturn]
    obtain ⟨hr1, hr2⟩ := returned_stays more
      (wstep (writePump (U := U) es) (.flush false)) hst.1
    refine ⟨by rw [h2]; exact hr1, ?_⟩
    rw [h2, hr2, hst.2]
    simp [frames_append, frames]

/-- C6, witness: two payloads are sent, the writer picks up the first and, before it counts
the queue, a third payload arrives; the single frame written holds all three in send order.
Then, from a writer waiting with two payloads queued, a payload sent before the count joins
the frame and a payload sent after the count stays queued. -/
theorem writePump_fifo_witness :
    (∀ e ∈ [WEvent.enqueue [1, 2], .enqueue [3], .recv 0 true, .enqueue [4, 5], .len, .deq,
        .deq, .flush true], e.succeeds = true) ∧
    (frames (writePump (U := Nat) [.enqueue [1, 2], .enqueue [3], .recv 0 true,
        .enqueue [4, 5], .len, .deq, .deq, .flush true]).trace).flatten
        ++ inflight (writePump (U := Nat) [.enqueue [1, 2], .enqueue [3], .recv 0 true,
            .enqueue [4, 5], .len, .deq, .deq, .flush true]).pc
        ++ (writePump (U := Nat) [.enqueue [1, 2], .enqueue [3], .recv 0 true,
            .enqueue [4, 5], .len, .deq, .deq, .flush true]).queue.flatten
      = (accepted (winit (U := Nat)) [.enqueue [1, 2], .enqueue [3], .recv 0 true,
          .enqueue [4, 5], .len, .deq, .deq, .flush true]).flatten ∧
    frames (writePump (U := Nat) [.enqueue [1, 2], .enqueue [3], .recv 0 true,
        .enqueue [4, 5], .len, .deq, .deq, .flush true]).trace = [[1, 2, 3, 4, 5]] ∧
    (frames (writePump (U := Nat)
        ([.enqueue [1, 2], .enqueue [3]] ++ onePass 0 [[4, 5]] [[6]] 2)).trace
      = [[1, 2, 3, 4, 5]] ∧
    (writePump (U := Nat)
        ([.enqueue [1, 2], .enqueue [3]] ++ onePass 0 [[4, 5]] [[6]] 2)).queue = [[6]] ∧
    (writePump (U := Nat)
        ([.enqueue [1, 2], .enqueue [3]] ++ onePass 0 [[4, 5]] [[6]] 2)).pc = .select ∧
    accepted (winit (U := Nat)) ([.enqueue [1, 2], .enqueue [3]] ++ onePass 0 [[4, 5]] [[6]] 2)
      = [[1, 2], [3], [4, 5], [6]]) :=
  ⟨by decide,
   (writePump_fifo (U := Nat) [.enqueue [1, 2], .enqueue [3], .recv 0 true, .enqueue [4, 5],
      .len, .deq, .deq, .flush true] (by decide)).2.1,
   by decide,
   (writePump_fifo (U := Nat) [.enqueue [1, 2], .enqueue [3]] (by decide)).2.2.2.2.1
      0 [1, 2] [[3]] [[4, 5]] [[6]] (by decide) (by decide) (by decide) (by decide)⟩

/-- C6, counterexample: two payloads are accepted by the channel, the writer takes both into
one frame and the frame's `Close` fails: the writer has returned, the queue is empty, no frame
was written, so the frames written do not add up to the payloads sent. The same happens to
a single payload when `NextWriter` fails. -/
theorem writePump_failed_write_loses_payloads :
    accepted (winit (U := Nat))
        [.enqueue [1, 2], .enqueue [3], .recv 0 true, .len, .deq, .flush false]
      = [[1, 2], [3]] ∧
    frames (writePump (U := Nat)
        [.enqueue [1, 2], .enqueue [3], .recv 0 true, .len, .deq, .flush false]).trace = [] ∧
    (writePump (U := Nat)
        [.enqueue [1, 2], .enqueue [3], .recv 0 true, .len, .deq, .flush false]).queue = [] ∧
    (writePump (U := Nat)
        [.enqueue [1, 2], .enqueue [3], .recv 0 true, .len, .deq, .flush false]).pc
      = .returned ∧
    (frames (writePump (U := Nat)
        [.enqueue [1, 2], .enqueue [3], .recv 0 true, .len, .deq, .flush false]).trace).flatten
      ≠ (accepted (winit (U := Nat))
          [.enqueue [1, 2], .enqueue [3], .recv 0 true, .len, .deq, .flush false]).flatten ∧
    accepted (winit (U := Nat)) [.enqueue [1, 2], .recv 0 false] = [[1, 2]] ∧
    frames (writePump (U := Nat) [.enqueue [1, 2], .recv 0 false]).trace = [] ∧
    (writePump (U := Nat) [.enqueue [1, 2], .recv 0 false]).queue = [] ∧
    (writePump (U := Nat) [.enqueue [1, 2], .recv 0 false]).pc = .returned := by
  decide

/-- C10: the frame is the plain concatenation of the coalesced payloads, so different payload
lists give the same frame: the queues `[ab, c]`, `[a, bc]` and `[abc]` are all written as the
one frame `abc`, and the map from the queued payloads to the frames written is not
injective. -/
theorem coalescing_not_injective :
    frames (writePump (U := Nat)
        ([.enqueue [97, 98], .enqueue [99]] ++ oneFrame 0 1)).trace = [[97, 98, 99]] ∧
    frames (writePump (U := Nat)
        ([.enqueue [97], .enqueue [98, 99]] ++ oneFrame 0 1)).trace = [[97, 98, 99]] ∧
    frames (writePump (U := Nat)
        ([.enqueue [97, 98, 99]] ++ oneFrame 0 0)).trace = [[97, 98, 99]] ∧
    ¬ Function.Injective (fun ps : List Bytes =>
        frames (writePump (U := Nat)
          (ps.map WEvent.enqueue ++ oneFrame 0 (ps.length - 1))).trace) := by
  refine ⟨by decide, by decide, by decide, ?_⟩
  intro hinj
  have h := @hinj [[97, 98], [99]] [[97], [98, 99]] (by decide)
  exact absurd h (by decide)

end TombMates
